import Mathlib

/-!
Verification development for the BusTub buffer pool core: a shallow embedding
of `src/buffer/buffer_pool_manager.cpp` and `src/buffer/clock_replacer.cpp`
(with `src/include/buffer/clock_replacer.h`), together with theorems settling
the specification claims about them.

The embedding is sequential: each public operation runs under the manager
latch in the source, so an operation is a function from states to states.
C++ `std::list` iterators are modelled as indices into a Lean list; the
`end()` iterator is modelled as `none`.  The `frame_map_` of the replacer is
kept in lockstep with `frame_list_` by the source, so map lookups are
modelled as searches over the list by frame id.
-/

namespace BusTub

/-! ## Generic list plumbing (indexing used to model array / std::list access) -/

/-- Total indexed read with default, modelling `pages_[i]` and iterator dereference. -/
def lget {α : Type} (d : α) : List α → Nat → α
  | [], _ => d
  | x :: _, 0 => x
  | _ :: xs, n+1 => lget d xs n

/-- Total indexed write; out-of-range writes are dropped. -/
def lset {α : Type} : List α → Nat → α → List α
  | [], _, _ => []
  | _ :: xs, 0, v => v :: xs
  | x :: xs, n+1, v => x :: lset xs n v

/-- Erase the element at an index, modelling `std::list::erase` at an iterator. -/
def lerase {α : Type} : List α → Nat → List α
  | [], _ => []
  | _ :: xs, 0 => xs
  | x :: xs, n+1 => x :: lerase xs n

/-! ## Clock replacer (`clock_replacer.cpp` / `clock_replacer.h`) -/

/-- Sentinel page id (`INVALID_PAGE_ID` in `common/config.h`). -/
def INVALID_PAGE_ID : Int := -1

/-- `ClockReplacer::FrameState`: frame id plus reference bit.  The constructor
sets `reference_bit` to `true`. -/
structure FrameState where
  frame_id : Int
  reference_bit : Bool
deriving DecidableEq

/-- Junk descriptor returned by total reads outside the list. -/
def dFS : FrameState := ⟨0, false⟩

/-- `ClockReplacer` state: `frame_list_` plus the clock hand.  The hand is an
index into the list; `none` models the `end()` iterator.  `frame_map_` is kept
in lockstep with the list by the source and is modelled implicitly by searching
the list by frame id. -/
structure ClockReplacer where
  frame_list : List FrameState
  clock_hand : Option Nat
deriving DecidableEq

/-- Membership of a frame id among the descriptors (the key set of `frame_map_`). -/
def memId (x : Int) : List FrameState → Bool
  | [] => false
  | fs :: rest => (fs.frame_id == x) || memId x rest

/-- All descriptor frame ids are distinct (an invariant of `frame_map_`). -/
def idsNodup : List FrameState → Bool
  | [] => true
  | fs :: rest => !(memId fs.frame_id rest) && idsNodup rest

/-- `frame_map_.find(frame_id)`: the position of the descriptor for a frame id. -/
def findIdxFS (x : Int) : List FrameState → Option Nat
  | [] => none
  | fs :: rest =>
      if fs.frame_id = x then some 0 else (findIdxFS x rest).map (· + 1)

/-- Number of descriptors whose reference bit is set (used to bound the sweep). -/
def trueBits : List FrameState → Nat
  | [] => 0
  | fs :: rest => (if fs.reference_bit then 1 else 0) + trueBits rest

/-- `clock_hand_->reference_bit = false`: clear the bit at an index. -/
def clearAt : List FrameState → Nat → List FrameState
  | [], _ => []
  | fs :: rest, 0 => ⟨fs.frame_id, false⟩ :: rest
  | fs :: rest, n+1 => fs :: clearAt rest n

/-- One circular advance of an index below `n`, as in `ClockReplacer::NextClockHand`:
increment, wrapping past the tail to the head. -/
def wrapNext (n h : Nat) : Nat := if h + 1 = n then 0 else h + 1

/-- Iterated circular advance (used only to state and prove sweep properties). -/
def posFrom (n : Nat) : Nat → Nat → Nat
  | p, 0 => p
  | p, a+1 => posFrom n (wrapNext n p) a

/-- The sweep loop of `ClockReplacer::Victim`
(`while (clock_hand_->reference_bit) { clear; NextClockHand(); }`), with an
explicit fuel so that the recursion is structural; `none` means the fuel ran
out.  `sweepN_eq_some` below proves that `trueBits` many steps always suffice,
so the loop of the source is total and `sweep` is its value. -/
def sweepN (l : List FrameState) (h : Nat) : Nat → Option (List FrameState × Nat)
  | 0 => none
  | k+1 =>
      if h < l.length then
        if (lget dFS l h).reference_bit then
          sweepN (clearAt l h) (wrapNext l.length h) k
        else some (l, h)
      else some (l, h)

/-- The value of the sweep loop: fuel `length + 1` is enough because every
iteration clears one set reference bit (`sweep_eq` recovers the loop equation). -/
def sweep (l : List FrameState) (h : Nat) : List FrameState × Nat :=
  (sweepN l h (l.length + 1)).getD (l, h)

/-- The first position at or after `h` (circularly, examining `k` positions)
holding a cleared reference bit.  Used to state what the sweep selects. -/
def searchFalse (l : List FrameState) : Nat → Nat → Option Nat
  | _, 0 => none
  | h, k+1 =>
      if (lget dFS l h).reference_bit then searchFalse l (wrapNext l.length h) k
      else some h

/-- The first descriptor at or after the hand whose reference bit is false;
when every bit is set the sweep clears a full revolution and comes back to the
hand itself. -/
def firstFalseFrom (l : List FrameState) (h : Nat) : Nat :=
  (searchFalse l h l.length).getD h

/-- `ClockReplacer::ClockReplacer(num_pages)`: the argument is ignored by the
source; only the clock hand is initialised (to `end()`). -/
def ClockReplacer.init (num_pages : Nat) : ClockReplacer :=
  { frame_list := [], clock_hand := none }

/-- `ClockReplacer::NextClockHand`. -/
def ClockReplacer.NextClockHand (r : ClockReplacer) : ClockReplacer :=
  match r.clock_hand with
  | none => r
  | some h => { r with clock_hand := some (wrapNext r.frame_list.length h) }

/-- `ClockReplacer::RemoveFrame`: erase the descriptor of a frame id from the
list (and the map); if the hand points at it, advance the hand first; if the
list becomes empty the hand moves to `end()`.  An erase before the hand shifts
the hand index down by one (iterator stability). -/
def ClockReplacer.RemoveFrame (r : ClockReplacer) (frame_id : Int) : ClockReplacer :=
  match findIdxFS frame_id r.frame_list with
  | none => r
  | some j =>
      let r1 := if r.clock_hand = some j then r.NextClockHand else r
      let l2 := lerase r1.frame_list j
      let hand2 : Option Nat :=
        match r1.clock_hand with
        | none => none
        | some h2 => if j < h2 then some (h2 - 1) else some h2
      if l2.length = 0 then { frame_list := l2, clock_hand := none }
      else { frame_list := l2, clock_hand := hand2 }

/-- `ClockReplacer::Victim`: fail when the hand is at `end()`; otherwise run the
sweep, report the frame under the hand, and remove it.  The read under the hand
is total via `lget`; under the well-formedness invariant the hand is in range. -/
def ClockReplacer.Victim (r : ClockReplacer) : Option Int × ClockReplacer :=
  match r.clock_hand with
  | none => (none, r)
  | some h =>
      let p := sweep r.frame_list h
      let fid := (lget dFS p.1 p.2).frame_id
      let r1 : ClockReplacer := { frame_list := p.1, clock_hand := some p.2 }
      (some fid, r1.RemoveFrame fid)

/-- `ClockReplacer::Pin`. -/
def ClockReplacer.Pin (r : ClockReplacer) (frame_id : Int) : ClockReplacer :=
  r.RemoveFrame frame_id

/-- `ClockReplacer::Unpin`: a no-op when the frame is already tracked, else
append a fresh descriptor (reference bit set) at the tail; if the list was
empty the hand is initialised to the new descriptor. -/
def ClockReplacer.Unpin (r : ClockReplacer) (frame_id : Int) : ClockReplacer :=
  match findIdxFS frame_id r.frame_list with
  | some _ => r
  | none =>
      let l2 := r.frame_list ++ [⟨frame_id, true⟩]
      { frame_list := l2
        clock_hand := if l2.length = 1 then some 0 else r.clock_hand }

/-- `ClockReplacer::Size`. -/
def ClockReplacer.Size (r : ClockReplacer) : Nat :=
  r.frame_list.length

/-- Structural well-formedness of a replacer state, maintained by the source:
the hand is `end()` exactly on the empty list, otherwise it is in range, and
descriptor frame ids are distinct. -/
def ClockReplacer.wf (r : ClockReplacer) : Bool :=
  (match r.clock_hand with
   | none => r.frame_list.isEmpty
   | some h => decide (h < r.frame_list.length)) && idsNodup r.frame_list

/-! ## Pages, disk manager and the buffer pool manager (`buffer_pool_manager.cpp`) -/

/-- Modelled from the spec: the `Page` frame type (its header is not under
`src/`).  Per the data model of the spec a frame carries the resident page id
(`INVALID_PAGE_ID` when none), a pin count, a dirty bit and the payload buffer.
The buffer is abstracted to a single value; `ResetMemory` zeroes it.  The
per-frame latches guard concurrent access only and are no-ops here. -/
structure Page where
  page_id : Int
  pin_count : Int
  is_dirty : Bool
  data : Int
deriving DecidableEq

/-- Modelled from the spec: a default-constructed frame holds no page, pin
count zero, clean, zeroed buffer. -/
def dPage : Page := ⟨INVALID_PAGE_ID, 0, false, 0⟩

/-- Modelled from the spec: the external `DiskManager` collaborator.
`AllocatePage` issues a fresh page id (a counter); `DeallocatePage` is recorded;
`ReadPage`/`WritePage` access the page store. -/
structure DiskManager where
  next_page_id : Int
  store : Int → Int
  deallocated : List Int

/-- `DiskManager::AllocatePage`. -/
def DiskManager.AllocatePage (d : DiskManager) : Int × DiskManager :=
  (d.next_page_id, { d with next_page_id := d.next_page_id + 1 })

/-- `DiskManager::DeallocatePage` (recorded, no other effect at this layer). -/
def DiskManager.DeallocatePage (d : DiskManager) (page_id : Int) : DiskManager :=
  { d with deallocated := d.deallocated ++ [page_id] }

/-- `DiskManager::ReadPage`. -/
def DiskManager.ReadPage (d : DiskManager) (page_id : Int) : Int :=
  d.store page_id

/-- `DiskManager::WritePage`. -/
def DiskManager.WritePage (d : DiskManager) (page_id : Int) (v : Int) : DiskManager :=
  { d with store := fun q => if q = page_id then v else d.store q }

/-- The buffer pool manager state: frame array, page table, free list,
replacer and the disk manager it drives. -/
structure BufferPoolManager where
  pool_size : Nat
  pages : List Page
  page_table : List (Int × Int)
  free_list : List Int
  replacer : ClockReplacer
  disk : DiskManager

/-- `page_table_.find(page_id)` on the association list modelling the map. -/
def ptFind (pt : List (Int × Int)) (page_id : Int) : Option Int :=
  match pt with
  | [] => none
  | (k, v) :: rest => if k = page_id then some v else ptFind rest page_id

/-- `page_table_[page_id] = frame_id`: update in place or append. -/
def ptInsert (pt : List (Int × Int)) (page_id frame_id : Int) : List (Int × Int) :=
  match pt with
  | [] => [(page_id, frame_id)]
  | (k, v) :: rest =>
      if k = page_id then (page_id, frame_id) :: rest
      else (k, v) :: ptInsert rest page_id frame_id

/-- `page_table_.erase(page_id)`: the map holds at most one entry per key. -/
def ptErase (pt : List (Int × Int)) (page_id : Int) : List (Int × Int) :=
  match pt with
  | [] => []
  | (k, v) :: rest => if k = page_id then rest else (k, v) :: ptErase rest page_id

/-- `BufferPoolManager::BufferPoolManager`: all frames default-initialised and
seeded into the free list; the replacer is constructed with the pool size. -/
def BufferPoolManager.init (pool_size : Nat) (d : DiskManager) : BufferPoolManager :=
  { pool_size := pool_size
    pages := List.replicate pool_size dPage
    page_table := []
    free_list := (List.range pool_size).map (fun i : Nat => (i : Int))
    replacer := ClockReplacer.init pool_size
    disk := d }

/-- `BufferPoolManager::ResetPage`: zero the buffer and set fresh metadata. -/
def ResetPage (new_page_id : Int) (new_pin_count : Int) : Page :=
  { page_id := new_page_id, pin_count := new_pin_count, is_dirty := false, data := 0 }

/-- Modelled from the spec: the declaration of `ResetPage` (its header is not
under `src/`) defaults `new_pin_count` for the `DeletePageImpl` call; the spec
resets frame metadata on delete and frames on the free list carry no pin, so
the default is zero. -/
def resetPinDefault : Int := 0

/-- `BufferPoolManager::FlushPageLocked`. -/
def BufferPoolManager.FlushPageLocked (s : BufferPoolManager) (page_id : Int) :
    Bool × BufferPoolManager :=
  match ptFind s.page_table page_id with
  | none => (false, s)
  | some fid =>
      let page := lget dPage s.pages fid.toNat
      if page.is_dirty then
        (true, { s with
                  disk := s.disk.WritePage page_id page.data
                  pages := lset s.pages fid.toNat { page with is_dirty := false } })
      else (true, s)

/-- `BufferPoolManager::FlushPageImpl` (the latch is a no-op here). -/
def BufferPoolManager.FlushPageImpl (s : BufferPoolManager) (page_id : Int) :
    Bool × BufferPoolManager :=
  s.FlushPageLocked page_id

/-- `BufferPoolManager::GetNextAvailableFrame`: pop the front of the free list,
else ask the replacer; `-1` reports failure. -/
def BufferPoolManager.GetNextAvailableFrame (s : BufferPoolManager) :
    Int × BufferPoolManager :=
  match s.free_list with
  | f :: rest => (f, { s with free_list := rest })
  | [] =>
      let vr := s.replacer.Victim
      (vr.1.getD (-1), { s with replacer := vr.2 })

/-- `BufferPoolManager::MaybeEvictPageFromFrame`: when the frame holds a page
(its stored id is not `INVALID_PAGE_ID`), flush it if dirty and drop its page
table entry. -/
def BufferPoolManager.MaybeEvictPageFromFrame (s : BufferPoolManager) (frame_id : Int) :
    Bool × BufferPoolManager :=
  let pid := (lget dPage s.pages frame_id.toNat).page_id
  if pid ≠ INVALID_PAGE_ID then
    let s1 := (s.FlushPageLocked pid).2
    (true, { s1 with page_table := ptErase s1.page_table pid })
  else (false, s)

/-- `BufferPoolManager::FetchPageImpl`; the returned page pointer is modelled
as the frame id. -/
def BufferPoolManager.FetchPageImpl (s : BufferPoolManager) (page_id : Int) :
    Option Int × BufferPoolManager :=
  match ptFind s.page_table page_id with
  | some fid =>
      let page := lget dPage s.pages fid.toNat
      let s1 := { s with pages := lset s.pages fid.toNat { page with pin_count := page.pin_count + 1 } }
      (some fid, { s1 with replacer := s1.replacer.Pin fid })
  | none =>
      let fr := s.GetNextAvailableFrame
      let fid := fr.1
      let s1 := fr.2
      if fid = -1 then (none, s1)
      else
        let s2 := (s1.MaybeEvictPageFromFrame fid).2
        let s3 := { s2 with page_table := ptInsert s2.page_table page_id fid }
        let s4 := { s3 with pages := lset s3.pages fid.toNat (ResetPage page_id 1) }
        let pg := lget dPage s4.pages fid.toNat
        let s5 := { s4 with pages := lset s4.pages fid.toNat { pg with data := s4.disk.ReadPage page_id } }
        (some fid, { s5 with replacer := s5.replacer.Pin fid })

/-- `BufferPoolManager::UnpinPageImpl`. -/
def BufferPoolManager.UnpinPageImpl (s : BufferPoolManager) (page_id : Int) (is_dirty : Bool) :
    Bool × BufferPoolManager :=
  match ptFind s.page_table page_id with
  | none => (true, s)
  | some fid =>
      let page := lget dPage s.pages fid.toNat
      if page.pin_count ≤ 0 then (false, s)
      else
        let newPin := page.pin_count - 1
        let page2 := { page with pin_count := newPin, is_dirty := page.is_dirty || is_dirty }
        let s1 := { s with pages := lset s.pages fid.toNat page2 }
        if newPin = 0 then (true, { s1 with replacer := s1.replacer.Unpin fid })
        else (true, s1)

/-- `BufferPoolManager::NewPageImpl`: allocates the page id from the disk
manager before checking for an available frame; the result carries the fresh
page id (the out parameter) and the frame. -/
def BufferPoolManager.NewPageImpl (s : BufferPoolManager) :
    Option (Int × Int) × BufferPoolManager :=
  let al := s.disk.AllocatePage
  let pid := al.1
  let s0 := { s with disk := al.2 }
  let fr := s0.GetNextAvailableFrame
  let fid := fr.1
  let s1 := fr.2
  if fid = -1 then (none, s1)
  else
    let s2 := (s1.MaybeEvictPageFromFrame fid).2
    let s3 := { s2 with pages := lset s2.pages fid.toNat (ResetPage pid 1) }
    (some (pid, fid), { s3 with page_table := ptInsert s3.page_table pid fid })

/-- `BufferPoolManager::DeletePageImpl`.  Note the source returns `false` on
the successful-delete path as well as on the pinned path. -/
def BufferPoolManager.DeletePageImpl (s : BufferPoolManager) (page_id : Int) :
    Bool × BufferPoolManager :=
  let s0 := { s with disk := s.disk.DeallocatePage page_id }
  match ptFind s0.page_table page_id with
  | none => (true, s0)
  | some fid =>
      let page := lget dPage s0.pages fid.toNat
      if page.pin_count ≠ 0 then (false, s0)
      else
        let s1 := { s0 with free_list := s0.free_list ++ [fid] }
        let s2 := { s1 with page_table := ptErase s1.page_table page_id }
        (false, { s2 with
                   pages := lset s2.pages fid.toNat (ResetPage INVALID_PAGE_ID resetPinDefault) })

/-- `BufferPoolManager::FlushAllPagesImpl`: flush every entry of the page
table (the flush of one entry does not modify the table). -/
def BufferPoolManager.FlushAllPagesImpl (s : BufferPoolManager) : BufferPoolManager :=
  s.page_table.foldl (fun acc pf => (acc.FlushPageLocked pf.1).2) s

/-! ## Operation inventory and runs -/

/-- The public cache-manager operations. -/
inductive BPMOp where
  | fetch (page_id : Int)
  | unpin (page_id : Int) (is_dirty : Bool)
  | flushPage (page_id : Int)
  | flushAll
  | newPage
  | deletePage (page_id : Int)
deriving DecidableEq

/-- Apply one public operation, discarding its return value. -/
def applyOp (s : BufferPoolManager) : BPMOp → BufferPoolManager
  | BPMOp.fetch pid => (s.FetchPageImpl pid).2
  | BPMOp.unpin pid d => (s.UnpinPageImpl pid d).2
  | BPMOp.flushPage pid => (s.FlushPageImpl pid).2
  | BPMOp.flushAll => s.FlushAllPagesImpl
  | BPMOp.newPage => s.NewPageImpl.2
  | BPMOp.deletePage pid => (s.DeletePageImpl pid).2

/-- Run a sequence of public operations. -/
def runOps (s : BufferPoolManager) : List BPMOp → BufferPoolManager
  | [] => s
  | op :: ops => runOps (applyOp s op) ops

/-- A concrete initial disk: fresh counter, zeroed store, nothing deallocated. -/
def d0 : DiskManager := ⟨0, fun _ => 0, []⟩

/-- Feed a list of frame ids to `ClockReplacer::Unpin` in order. -/
def unpinSeq (r : ClockReplacer) : List Int → ClockReplacer
  | [] => r
  | x :: xs => unpinSeq (r.Unpin x) xs

/-- The frame ids `0, 1, ..., n` (note: `n` itself is outside `[0, n)`). -/
def idsUpTo (n : Nat) : List Int :=
  (List.range (n + 1)).map (fun i : Nat => (i : Int))

/-! ## Lemmas: list plumbing -/

@[simp] theorem lget_nil {α : Type} (d : α) (n : Nat) : lget d [] n = d := rfl

@[simp] theorem lget_cons_zero {α : Type} (d : α) (x : α) (xs : List α) :
    lget d (x :: xs) 0 = x := rfl

@[simp] theorem lget_cons_succ {α : Type} (d : α) (x : α) (xs : List α) (n : Nat) :
    lget d (x :: xs) (n + 1) = lget d xs n := rfl

theorem lget_oob {α : Type} (d : α) (l : List α) : ∀ n, l.length ≤ n → lget d l n = d := by
  induction l with
  | nil => intro n _; rfl
  | cons x xs ih =>
      intro n h
      cases n with
      | zero => simp at h
      | succ m => exact ih m (by simpa using h)

@[simp] theorem length_lset {α : Type} (l : List α) : ∀ n v, (lset l n v).length = l.length := by
  induction l with
  | nil => intro n v; rfl
  | cons x xs ih =>
      intro n v
      cases n with
      | zero => rfl
      | succ m => simpa [lset] using ih m v

theorem lget_lset_self {α : Type} (d : α) (l : List α) :
    ∀ n v, n < l.length → lget d (lset l n v) n = v := by
  induction l with
  | nil => intro n v h; simp at h
  | cons x xs ih =>
      intro n v h
      cases n with
      | zero => rfl
      | succ m => exact ih m v (by simpa using h)

theorem lget_lset_ne {α : Type} (d : α) (l : List α) :
    ∀ n v m, m ≠ n → lget d (lset l n v) m = lget d l m := by
  induction l with
  | nil => intro n v m _; rfl
  | cons x xs ih =>
      intro n v m hne
      cases n with
      | zero =>
          cases m with
          | zero => exact absurd rfl hne
          | succ k => rfl
      | succ n' =>
          cases m with
          | zero => rfl
          | succ k => exact ih n' v k (by omega)

theorem lset_oob {α : Type} (l : List α) : ∀ n v, l.length ≤ n → lset l n v = l := by
  induction l with
  | nil => intro n v _; rfl
  | cons x xs ih =>
      intro n v h
      cases n with
      | zero => simp at h
      | succ m => simp [lset, ih m v (by simpa using h)]

@[simp] theorem lerase_cons_zero {α : Type} (x : α) (xs : List α) : lerase (x :: xs) 0 = xs := rfl

@[simp] theorem lerase_cons_succ {α : Type} (x : α) (xs : List α) (n : Nat) :
    lerase (x :: xs) (n + 1) = x :: lerase xs n := rfl

/-! ## Lemmas: clearAt, trueBits, memId, findIdxFS -/

@[simp] theorem length_clearAt (l : List FrameState) : ∀ h, (clearAt l h).length = l.length := by
  induction l with
  | nil => intro h; rfl
  | cons x xs ih =>
      intro h
      cases h with
      | zero => rfl
      | succ m => simpa [clearAt] using ih m

theorem lget_clearAt_self (l : List FrameState) :
    ∀ h, h < l.length → lget dFS (clearAt l h) h = ⟨(lget dFS l h).frame_id, false⟩ := by
  induction l with
  | nil => intro h hh; simp at hh
  | cons x xs ih =>
      intro h hh
      cases h with
      | zero => rfl
      | succ m => exact ih m (by simpa using hh)

theorem lget_clearAt_ne (l : List FrameState) :
    ∀ h j, j ≠ h → lget dFS (clearAt l h) j = lget dFS l j := by
  induction l with
  | nil => intro h j _; rfl
  | cons x xs ih =>
      intro h j hne
      cases h with
      | zero =>
          cases j with
          | zero => exact absurd rfl hne
          | succ k => rfl
      | succ m =>
          cases j with
          | zero => rfl
          | succ k => exact ih m k (by omega)

theorem frameId_clearAt (l : List FrameState) (h j : Nat) :
    (lget dFS (clearAt l h) j).frame_id = (lget dFS l j).frame_id := by
  by_cases hj : j = h
  · subst hj
    by_cases hh : j < l.length
    · rw [lget_clearAt_self l j hh]
    · rw [lget_oob dFS _ j (by simpa using Nat.le_of_not_lt hh),
          lget_oob dFS l j (Nat.le_of_not_lt hh)]
  · rw [lget_clearAt_ne l h j hj]

theorem memId_clearAt (x : Int) (l : List FrameState) :
    ∀ h, memId x (clearAt l h) = memId x l := by
  induction l with
  | nil => intro h; rfl
  | cons fs xs ih =>
      intro h
      cases h with
      | zero => rfl
      | succ m => simp [clearAt, memId, ih m]

theorem idsNodup_clearAt (l : List FrameState) :
    ∀ h, idsNodup (clearAt l h) = idsNodup l := by
  induction l with
  | nil => intro h; rfl
  | cons fs xs ih =>
      intro h
      cases h with
      | zero => rfl
      | succ m => simp [clearAt, idsNodup, memId_clearAt, ih m]

theorem trueBits_le_length (l : List FrameState) : trueBits l ≤ l.length := by
  induction l with
  | nil => exact Nat.le_refl 0
  | cons fs xs ih =>
      simp only [trueBits, List.length_cons]
      split <;> omega

theorem trueBits_clearAt (l : List FrameState) :
    ∀ h, h < l.length → (lget dFS l h).reference_bit = true →
      trueBits (clearAt l h) + 1 = trueBits l := by
  induction l with
  | nil => intro h hh _; simp at hh
  | cons fs xs ih =>
      intro h hh hb
      cases h with
      | zero =>
          simp only [lget_cons_zero] at hb
          simp [clearAt, trueBits, hb]
          omega
      | succ m =>
          have := ih m (by simpa using hh) (by simpa using hb)
          simp only [clearAt, trueBits]
          omega

theorem memId_lget (l : List FrameState) :
    ∀ j, j < l.length → memId (lget dFS l j).frame_id l = true := by
  induction l with
  | nil => intro j hj; simp at hj
  | cons fs xs ih =>
      intro j hj
      cases j with
      | zero => simp [memId]
      | succ m =>
          simp only [lget_cons_succ, memId, Bool.or_eq_true]
          exact Or.inr (ih m (by simpa using hj))

theorem findIdxFS_eq_none (x : Int) (l : List FrameState) (h : memId x l = false) :
    findIdxFS x l = none := by
  induction l with
  | nil => rfl
  | cons fs xs ih =>
      simp only [memId, Bool.or_eq_false_iff, beq_eq_false_iff_ne, ne_eq] at h
      simp [findIdxFS, h.1, ih h.2]

theorem findIdxFS_of_nodup (l : List FrameState) :
    ∀ j, idsNodup l = true → j < l.length →
      findIdxFS (lget dFS l j).frame_id l = some j := by
  induction l with
  | nil => intro j _ hj; simp at hj
  | cons fs xs ih =>
      intro j hnd hj
      simp only [idsNodup, Bool.and_eq_true, Bool.not_eq_true'] at hnd
      cases j with
      | zero => simp [findIdxFS]
      | succ m =>
          have hm : m < xs.length := by simpa using hj
          have hne : ¬ fs.frame_id = (lget dFS xs m).frame_id := by
            intro he
            have := memId_lget xs m hm
            rw [← he] at this
            rw [this] at hnd
            exact absurd hnd.1 (by simp)
          simp [findIdxFS, hne, ih m hnd.2 hm]

theorem memId_lerase_of_nodup (l : List FrameState) :
    ∀ j, idsNodup l = true → j < l.length →
      memId (lget dFS l j).frame_id (lerase l j) = false := by
  induction l with
  | nil => intro j _ hj; simp at hj
  | cons fs xs ih =>
      intro j hnd hj
      simp only [idsNodup, Bool.and_eq_true, Bool.not_eq_true'] at hnd
      cases j with
      | zero => simpa using hnd.1
      | succ m =>
          have hm : m < xs.length := by simpa using hj
          have hne : ¬ fs.frame_id = (lget dFS xs m).frame_id := by
            intro he
            have := memId_lget xs m hm
            rw [← he] at this
            rw [this] at hnd
            exact absurd hnd.1 (by simp)
          simp only [lget_cons_succ, lerase_cons_succ, memId, Bool.or_eq_false_iff]
          exact ⟨by simpa using hne, ih m hnd.2 hm⟩

/-! ## Lemmas: circular positions -/

theorem wrapNext_lt (n p : Nat) (hn : 0 < n) (hp : p < n) : wrapNext n p < n := by
  unfold wrapNext
  split <;> omega

theorem wrapNext_mod (n p : Nat) (hp : p < n) : wrapNext n p = (p + 1) % n := by
  unfold wrapNext
  split
  · next h => rw [h, Nat.mod_self]
  · next h => exact (Nat.mod_eq_of_lt (by omega)).symm

theorem posFrom_mod (n : Nat) : ∀ a p, p < n → posFrom n p a = (p + a) % n := by
  intro a
  induction a with
  | zero => intro p hp; simpa [posFrom] using (Nat.mod_eq_of_lt hp).symm
  | succ m ih =>
      intro p hp
      have h1 : wrapNext n p < n := wrapNext_lt n p (by omega) hp
      calc posFrom n p (m + 1) = posFrom n (wrapNext n p) m := rfl
        _ = (wrapNext n p + m) % n := ih (wrapNext n p) h1
        _ = ((p + 1) % n + m) % n := by rw [wrapNext_mod n p hp]
        _ = (p + 1 + m) % n := Nat.mod_add_mod (p + 1) n m
        _ = (p + (m + 1)) % n := by ring_nf

/-! ## Lemmas: the sweep of Victim -/

theorem searchFalse_split (l : List FrameState) :
    ∀ a p b, searchFalse l p (a + b) =
      match searchFalse l p a with
      | some j => some j
      | none => searchFalse l (posFrom l.length p a) b := by
  intro a
  induction a with
  | zero =>
      intro p b
      simp [searchFalse, posFrom]
  | succ m ih =>
      intro p b
      have hidx : m + 1 + b = (m + b) + 1 := by omega
      rw [hidx]
      by_cases hb : (lget dFS l p).reference_bit = true
      · have h1 : searchFalse l p ((m + b) + 1) =
            searchFalse l (wrapNext l.length p) (m + b) := by
          simp [searchFalse, hb]
        have h2 : searchFalse l p (m + 1) =
            searchFalse l (wrapNext l.length p) m := by
          simp [searchFalse, hb]
        rw [h1, h2]
        exact ih (wrapNext l.length p) b
      · have hbf : (lget dFS l p).reference_bit = false := by
          cases hx : (lget dFS l p).reference_bit
          · rfl
          · exact absurd hx hb
        simp [searchFalse, hbf]

theorem searchFalse_agree (l : List FrameState) (h : Nat) :
    ∀ k p, p < l.length → (∀ i, i < k → posFrom l.length p i ≠ h) →
      searchFalse (clearAt l h) p k = searchFalse l p k := by
  intro k
  induction k with
  | zero => intro p _ _; rfl
  | succ m ih =>
      intro p hp hmiss
      have hpne : p ≠ h := by
        have := hmiss 0 (by omega)
        simpa [posFrom] using this
      have hbit : lget dFS (clearAt l h) p = lget dFS l p := lget_clearAt_ne l h p hpne
      have hlen : (clearAt l h).length = l.length := length_clearAt l h
      simp only [searchFalse, hlen, hbit]
      by_cases hb : (lget dFS l p).reference_bit = true
      · simp only [hb, if_true]
        exact ih (wrapNext l.length p) (wrapNext_lt _ _ (by omega) hp)
          (fun i hi => by
            have := hmiss (i + 1) (by omega)
            simpa [posFrom] using this)
      · simp [hb]

theorem posFrom_ne_start (n h : Nat) (hh : h < n) :
    ∀ i, i < n - 1 → posFrom n (wrapNext n h) i ≠ h := by
  intro i hi heq
  have h1 : wrapNext n h < n := wrapNext_lt n h (by omega) hh
  rw [posFrom_mod n i (wrapNext n h) h1, wrapNext_mod n h hh, Nat.mod_add_mod] at heq
  by_cases hlt : h + 1 + i < n
  · rw [Nat.mod_eq_of_lt hlt] at heq
    omega
  · have hge : n ≤ h + 1 + i := by omega
    rw [Nat.mod_eq_sub_mod hge, Nat.mod_eq_of_lt (by omega)] at heq
    omega

theorem firstFalseFrom_of_false (l : List FrameState) (h : Nat) (hh : h < l.length)
    (hb : (lget dFS l h).reference_bit = false) : firstFalseFrom l h = h := by
  unfold firstFalseFrom
  obtain ⟨m, hm⟩ : ∃ m, l.length = m + 1 := ⟨l.length - 1, by omega⟩
  rw [hm]
  simp [searchFalse, hb]

theorem firstFalseFrom_clearAt (l : List FrameState) (h : Nat) (hh : h < l.length)
    (hb : (lget dFS l h).reference_bit = true) :
    firstFalseFrom (clearAt l h) (wrapNext l.length h) = firstFalseFrom l h := by
  obtain ⟨m, hm⟩ : ∃ m, l.length = m + 1 := ⟨l.length - 1, by omega⟩
  have hw : wrapNext l.length h < l.length := wrapNext_lt _ _ (by omega) hh
  have hlen : (clearAt l h).length = l.length := length_clearAt l h
  have hR : searchFalse l h (m + 1) = searchFalse l (wrapNext l.length h) m := by
    simp [searchFalse, hb]
  have hagree : searchFalse (clearAt l h) (wrapNext l.length h) m =
      searchFalse l (wrapNext l.length h) m :=
    searchFalse_agree l h m (wrapNext l.length h) hw
      (fun i hi => posFrom_ne_start l.length h hh i (by omega))
  have hpos : posFrom l.length (wrapNext l.length h) m = h := by
    rw [posFrom_mod l.length m (wrapNext l.length h) hw, wrapNext_mod l.length h hh,
        Nat.mod_add_mod]
    have h2 : h + 1 + m = h + l.length := by omega
    rw [h2, Nat.add_mod_right, Nat.mod_eq_of_lt hh]
  have hclear1 : searchFalse (clearAt l h) h 1 = some h := by
    simp [searchFalse, lget_clearAt_self l h hh]
  have hsplit := searchFalse_split (clearAt l h) m (wrapNext l.length h) 1
  rw [hlen, hpos, hagree, hclear1] at hsplit
  unfold firstFalseFrom
  rw [hlen]
  rw [show searchFalse (clearAt l h) (wrapNext l.length h) l.length =
        searchFalse (clearAt l h) (wrapNext l.length h) (m + 1) from by rw [hm]]
  rw [show searchFalse l h l.length = searchFalse l h (m + 1) from by rw [hm]]
  rw [hsplit, hR]
  cases hcase : searchFalse l (wrapNext l.length h) m with
  | none => rfl
  | some j => rfl

theorem sweepN_agree : ∀ k l h k', trueBits l < k → trueBits l < k' →
    sweepN l h k = sweepN l h k' := by
  intro k
  induction k with
  | zero => intro l h k' hk _; omega
  | succ m ih =>
      intro l h k' hk hk'
      obtain ⟨m2, rfl⟩ : ∃ m2, k' = m2 + 1 := ⟨k' - 1, by omega⟩
      simp only [sweepN]
      by_cases hlt : h < l.length
      · by_cases hb : (lget dFS l h).reference_bit = true
        · simp only [hlt, hb, if_true]
          have htb := trueBits_clearAt l h hlt hb
          exact ih (clearAt l h) (wrapNext l.length h) m2 (by omega) (by omega)
        · simp [hlt, hb]
      · simp [hlt]

theorem sweepN_isSome : ∀ k l h, trueBits l < k → (sweepN l h k).isSome = true := by
  intro k
  induction k with
  | zero => intro l h hk; omega
  | succ m ih =>
      intro l h hk
      simp only [sweepN]
      by_cases hlt : h < l.length
      · by_cases hb : (lget dFS l h).reference_bit = true
        · simp only [hlt, hb, if_true]
          have htb := trueBits_clearAt l h hlt hb
          exact ih (clearAt l h) (wrapNext l.length h) (by omega)
        · simp [hlt, hb]
      · simp [hlt]

theorem sweep_eq (l : List FrameState) (h : Nat) :
    sweep l h = if h < l.length then
        (if (lget dFS l h).reference_bit then sweep (clearAt l h) (wrapNext l.length h)
         else (l, h))
      else (l, h) := by
  by_cases hlt : h < l.length
  · by_cases hb : (lget dFS l h).reference_bit = true
    · rw [if_pos hlt, if_pos hb]
      unfold sweep
      have h1 : sweepN l h (l.length + 1) =
          sweepN (clearAt l h) (wrapNext l.length h) l.length := by
        simp [sweepN, hlt, hb]
      have hlen : (clearAt l h).length = l.length := length_clearAt l h
      have htb := trueBits_clearAt l h hlt hb
      have hle := trueBits_le_length l
      have h2 : sweepN (clearAt l h) (wrapNext l.length h) l.length =
          sweepN (clearAt l h) (wrapNext l.length h) ((clearAt l h).length + 1) :=
        sweepN_agree l.length (clearAt l h) (wrapNext l.length h)
          ((clearAt l h).length + 1) (by omega) (by rw [hlen]; omega)
      obtain ⟨y, hy⟩ := Option.isSome_iff_exists.mp
        (sweepN_isSome ((clearAt l h).length + 1) (clearAt l h) (wrapNext l.length h)
          (by rw [hlen]; omega))
      rw [h1, h2, hy]
      rfl
    · have hbf : (lget dFS l h).reference_bit = false := by
        cases hx : (lget dFS l h).reference_bit
        · rfl
        · exact absurd hx hb
      rw [if_pos hlt, if_neg (by simp [hbf])]
      unfold sweep
      simp [sweepN, hlt, hbf]
  · rw [if_neg hlt]
    unfold sweep
    simp [sweepN, hlt]

theorem sweepN_eq_some : ∀ k l h, trueBits l < k → sweepN l h k = some (sweep l h) := by
  intro k
  induction k with
  | zero => intro l h hk; omega
  | succ m ih =>
      intro l h hk
      rw [sweep_eq]
      simp only [sweepN]
      by_cases hlt : h < l.length
      · by_cases hb : (lget dFS l h).reference_bit = true
        · simp only [hlt, hb, if_true]
          have htb := trueBits_clearAt l h hlt hb
          exact ih (clearAt l h) (wrapNext l.length h) (by omega)
        · simp [hlt, hb]
      · simp [hlt]

theorem sweep_spec : ∀ k l h, trueBits l ≤ k → h < l.length →
    (sweep l h).1.length = l.length ∧
    (sweep l h).2 < l.length ∧
    (lget dFS (sweep l h).1 (sweep l h).2).reference_bit = false ∧
    (sweep l h).2 = firstFalseFrom l h ∧
    (∀ j, (lget dFS (sweep l h).1 j).frame_id = (lget dFS l j).frame_id) ∧
    idsNodup (sweep l h).1 = idsNodup l := by
  intro k
  induction k with
  | zero =>
      intro l h hk hh
      have hb : (lget dFS l h).reference_bit = false := by
        cases hx : (lget dFS l h).reference_bit
        · rfl
        · have := trueBits_clearAt l h hh hx
          omega
      rw [sweep_eq, if_pos hh, if_neg (by simp [hb])]
      exact ⟨rfl, hh, by simpa using hb, (firstFalseFrom_of_false l h hh hb).symm,
        fun j => rfl, rfl⟩
  | succ m ih =>
      intro l h hk hh
      by_cases hb : (lget dFS l h).reference_bit = true
      · have hstep : sweep l h = sweep (clearAt l h) (wrapNext l.length h) := by
          rw [sweep_eq, if_pos hh, if_pos hb]
        have hlen : (clearAt l h).length = l.length := length_clearAt l h
        have htb := trueBits_clearAt l h hh hb
        have hw : wrapNext l.length h < l.length := wrapNext_lt _ _ (by omega) hh
        obtain ⟨r1, r2, r3, r4, r5, r6⟩ :=
          ih (clearAt l h) (wrapNext l.length h) (by omega) (by rw [hlen]; exact hw)
        rw [hstep]
        refine ⟨by rw [r1, hlen], by rw [hlen] at r2; exact r2, r3, ?_, ?_,
          by rw [r6, idsNodup_clearAt]⟩
        · rw [r4]
          exact firstFalseFrom_clearAt l h hh hb
        · intro j
          rw [r5 j, frameId_clearAt]
      · have hbf : (lget dFS l h).reference_bit = false := by
          cases hx : (lget dFS l h).reference_bit
          · rfl
          · exact absurd hx hb
        rw [sweep_eq, if_pos hh, if_neg (by simp [hbf])]
        exact ⟨rfl, hh, by simpa using hbf, (firstFalseFrom_of_false l h hh hbf).symm,
          fun j => rfl, rfl⟩

/-! ## Lemmas: replacer well-formedness and removal -/

theorem wf_hand_some (r : ClockReplacer) (h : Nat) (hw : r.wf = true)
    (hh : r.clock_hand = some h) : h < r.frame_list.length := by
  unfold ClockReplacer.wf at hw
  rw [hh] at hw
  simp only [Bool.and_eq_true, decide_eq_true_eq] at hw
  exact hw.1

theorem wf_nodup (r : ClockReplacer) (hw : r.wf = true) : idsNodup r.frame_list = true := by
  unfold ClockReplacer.wf at hw
  rcases hr : r.clock_hand with _ | h <;> rw [hr] at hw <;>
    simp only [Bool.and_eq_true] at hw
  · exact hw.2
  · exact hw.2

theorem wf_hand_of_ne_nil (r : ClockReplacer) (hw : r.wf = true)
    (hne : r.frame_list ≠ []) : ∃ h, r.clock_hand = some h := by
  rcases hr : r.clock_hand with _ | h
  · unfold ClockReplacer.wf at hw
    rw [hr] at hw
    simp only [Bool.and_eq_true] at hw
    cases hl : r.frame_list with
    | nil => exact absurd hl hne
    | cons x xs =>
        rw [hl] at hw
        simp [List.isEmpty] at hw
  · exact ⟨h, rfl⟩

theorem NextClockHand_frame_list (r : ClockReplacer) :
    r.NextClockHand.frame_list = r.frame_list := by
  unfold ClockReplacer.NextClockHand
  rcases hr : r.clock_hand with _ | h <;> rfl

theorem RemoveFrame_frame_list (r : ClockReplacer) (x : Int) (j : Nat)
    (hf : findIdxFS x r.frame_list = some j) :
    (r.RemoveFrame x).frame_list = lerase r.frame_list j := by
  unfold ClockReplacer.RemoveFrame
  rw [hf]
  simp only []
  by_cases hc : r.clock_hand = some j
  · rw [if_pos hc]
    split <;> simp [NextClockHand_frame_list]
  · rw [if_neg hc]
    split <;> simp

/-! ## Claim C5 -/

/-- Claim C5: on an empty tracked list `Victim` returns false (here: `none`)
and leaves the state unchanged; otherwise the clear-and-advance sweep
terminates within two full revolutions (fuel `2 * length` never runs out),
and `Victim` reports the frame id of the first descriptor at or after the
hand whose reference bit is false (`firstFalseFrom`; when every bit is set
the sweep comes back to the hand itself after clearing one revolution),
removes that descriptor from the list and from the id index, and returns
true (`some`). -/
theorem c5_victim_clock_sweep (r : ClockReplacer) (hw : r.wf = true) :
    (r.frame_list = [] → r.Victim = (none, r)) ∧
    (r.frame_list ≠ [] →
      ∃ h, r.clock_hand = some h ∧
        sweepN r.frame_list h (2 * r.frame_list.length) = some (sweep r.frame_list h) ∧
        (r.Victim).1 =
          some ((lget dFS r.frame_list (firstFalseFrom r.frame_list h)).frame_id) ∧
        (r.Victim).2.frame_list =
          lerase (sweep r.frame_list h).1 (firstFalseFrom r.frame_list h) ∧
        findIdxFS ((lget dFS r.frame_list (firstFalseFrom r.frame_list h)).frame_id)
          (r.Victim).2.frame_list = none) := by
  constructor
  · intro hnil
    rcases hr : r.clock_hand with _ | h
    · unfold ClockReplacer.Victim
      rw [hr]
    · have := wf_hand_some r h hw hr
      rw [hnil] at this
      simp at this
  · intro hne
    obtain ⟨h, hr⟩ := wf_hand_of_ne_nil r hw hne
    have hh : h < r.frame_list.length := wf_hand_some r h hw hr
    have hnd := wf_nodup r hw
    have hlen1 : 1 ≤ r.frame_list.length := by omega
    obtain ⟨s1, s2, s3, s4, s5, s6⟩ :=
      sweep_spec (trueBits r.frame_list) r.frame_list h (Nat.le_refl _) hh
    have hV : r.Victim =
        (some ((lget dFS (sweep r.frame_list h).1 (sweep r.frame_list h).2).frame_id),
         (ClockReplacer.mk (sweep r.frame_list h).1 (some (sweep r.frame_list h).2)).RemoveFrame
           ((lget dFS (sweep r.frame_list h).1 (sweep r.frame_list h).2).frame_id)) := by
      unfold ClockReplacer.Victim
      rw [hr]
    have hfid : (lget dFS (sweep r.frame_list h).1 (sweep r.frame_list h).2).frame_id =
        (lget dFS r.frame_list (firstFalseFrom r.frame_list h)).frame_id := by
      rw [s5, s4]
    have hfind : findIdxFS
        ((lget dFS r.frame_list (firstFalseFrom r.frame_list h)).frame_id)
        (sweep r.frame_list h).1 = some (firstFalseFrom r.frame_list h) := by
      have hnd2 : idsNodup (sweep r.frame_list h).1 = true := by rw [s6]; exact hnd
      have hlt2 : (sweep r.frame_list h).2 < (sweep r.frame_list h).1.length := by
        rw [s1]; exact s2
      have := findIdxFS_of_nodup (sweep r.frame_list h).1 (sweep r.frame_list h).2 hnd2 hlt2
      rw [hfid, s4] at this
      exact this
    have hRF : ((ClockReplacer.mk (sweep r.frame_list h).1
          (some (sweep r.frame_list h).2)).RemoveFrame
            ((lget dFS (sweep r.frame_list h).1 (sweep r.frame_list h).2).frame_id)).frame_list =
        lerase (sweep r.frame_list h).1 (firstFalseFrom r.frame_list h) := by
      rw [RemoveFrame_frame_list _ _ (firstFalseFrom r.frame_list h) (by rw [hfid]; exact hfind)]
    refine ⟨h, hr, ?_, ?_, ?_, ?_⟩
    · exact sweepN_eq_some (2 * r.frame_list.length) r.frame_list h
        (by have := trueBits_le_length r.frame_list; omega)
    · rw [hV, hfid]
    · rw [hV]
      exact hRF
    · rw [hV]
      simp only [hRF]
      apply findIdxFS_eq_none
      have hm := memId_lerase_of_nodup (sweep r.frame_list h).1 (sweep r.frame_list h).2
        (by rw [s6]; exact hnd) (by rw [s1]; exact s2)
      rw [hfid, s4] at hm
      exact hm

/-- Witness for C5: a two-descriptor replacer with the hand on a set bit; the
victim is the second descriptor, the first descriptor at or after the hand
with a cleared bit. -/
theorem c5_victim_clock_sweep_witness :
    (ClockReplacer.mk [⟨0, true⟩, ⟨1, false⟩] (some 0)).wf = true ∧
    ((ClockReplacer.mk [⟨0, true⟩, ⟨1, false⟩] (some 0)).frame_list ≠ [] →
      ∃ h, (ClockReplacer.mk [⟨0, true⟩, ⟨1, false⟩] (some 0)).clock_hand = some h ∧
        sweepN (ClockReplacer.mk [⟨0, true⟩, ⟨1, false⟩] (some 0)).frame_list h
          (2 * (ClockReplacer.mk [⟨0, true⟩, ⟨1, false⟩] (some 0)).frame_list.length) =
          some (sweep (ClockReplacer.mk [⟨0, true⟩, ⟨1, false⟩] (some 0)).frame_list h) ∧
        ((ClockReplacer.mk [⟨0, true⟩, ⟨1, false⟩] (some 0)).Victim).1 =
          some ((lget dFS (ClockReplacer.mk [⟨0, true⟩, ⟨1, false⟩] (some 0)).frame_list
            (firstFalseFrom (ClockReplacer.mk [⟨0, true⟩, ⟨1, false⟩] (some 0)).frame_list h)).frame_id) ∧
        ((ClockReplacer.mk [⟨0, true⟩, ⟨1, false⟩] (some 0)).Victim).2.frame_list =
          lerase (sweep (ClockReplacer.mk [⟨0, true⟩, ⟨1, false⟩] (some 0)).frame_list h).1
            (firstFalseFrom (ClockReplacer.mk [⟨0, true⟩, ⟨1, false⟩] (some 0)).frame_list h) ∧
        findIdxFS ((lget dFS (ClockReplacer.mk [⟨0, true⟩, ⟨1, false⟩] (some 0)).frame_list
            (firstFalseFrom (ClockReplacer.mk [⟨0, true⟩, ⟨1, false⟩] (some 0)).frame_list h)).frame_id)
          ((ClockReplacer.mk [⟨0, true⟩, ⟨1, false⟩] (some 0)).Victim).2.frame_list = none) :=
  ⟨by decide, (c5_victim_clock_sweep (ClockReplacer.mk [⟨0, true⟩, ⟨1, false⟩] (some 0))
    (by decide)).2⟩

/-! ## Lemmas: page table and flush shapes -/

theorem ptFind_ptInsert_self (pt : List (Int × Int)) (pid fid : Int) :
    ptFind (ptInsert pt pid fid) pid = some fid := by
  induction pt with
  | nil => simp [ptInsert, ptFind]
  | cons kv rest ih =>
      by_cases hk : kv.1 = pid
      · simp [ptInsert, hk, ptFind]
      · simp [ptInsert, hk, ptFind, ih]

theorem FlushPageLocked_cases (s : BufferPoolManager) (pid : Int) :
    (s.FlushPageLocked pid = (false, s) ∧ ptFind s.page_table pid = none) ∨
    (∃ fid, ptFind s.page_table pid = some fid ∧
      (lget dPage s.pages fid.toNat).is_dirty = false ∧ s.FlushPageLocked pid = (true, s)) ∨
    (∃ fid, ptFind s.page_table pid = some fid ∧
      (lget dPage s.pages fid.toNat).is_dirty = true ∧
      s.FlushPageLocked pid = (true,
        { s with
            disk := s.disk.WritePage pid (lget dPage s.pages fid.toNat).data
            pages := lset s.pages fid.toNat
              { lget dPage s.pages fid.toNat with is_dirty := false } })) := by
  unfold BufferPoolManager.FlushPageLocked
  cases hpt : ptFind s.page_table pid with
  | none => exact Or.inl ⟨rfl, rfl⟩
  | some fid =>
      by_cases hd : (lget dPage s.pages fid.toNat).is_dirty = true
      · refine Or.inr (Or.inr ⟨fid, rfl, hd, ?_⟩)
        simp [hd]
      · refine Or.inr (Or.inl ⟨fid, rfl, by simpa using hd, ?_⟩)
        simp [hd]

theorem MaybeEvict_cases (s : BufferPoolManager) (fid : Int) :
    ((lget dPage s.pages fid.toNat).page_id = INVALID_PAGE_ID ∧
      s.MaybeEvictPageFromFrame fid = (false, s)) ∨
    ((lget dPage s.pages fid.toNat).page_id ≠ INVALID_PAGE_ID ∧
      s.MaybeEvictPageFromFrame fid = (true,
        { (s.FlushPageLocked (lget dPage s.pages fid.toNat).page_id).2 with
            page_table :=
              ptErase (s.FlushPageLocked (lget dPage s.pages fid.toNat).page_id).2.page_table
                (lget dPage s.pages fid.toNat).page_id })) := by
  unfold BufferPoolManager.MaybeEvictPageFromFrame
  by_cases hp : (lget dPage s.pages fid.toNat).page_id = INVALID_PAGE_ID
  · exact Or.inl ⟨hp, by simp [hp]⟩
  · exact Or.inr ⟨hp, by simp [hp]⟩

theorem FlushPageLocked_pages_length (s : BufferPoolManager) (pid : Int) :
    (s.FlushPageLocked pid).2.pages.length = s.pages.length := by
  rcases FlushPageLocked_cases s pid with ⟨he, _⟩ | ⟨fid, _, _, he⟩ | ⟨fid, _, _, he⟩ <;>
    rw [he] <;> simp

theorem MaybeEvict_pages_length (s : BufferPoolManager) (fid : Int) :
    (s.MaybeEvictPageFromFrame fid).2.pages.length = s.pages.length := by
  rcases MaybeEvict_cases s fid with ⟨_, he⟩ | ⟨_, he⟩
  · rw [he]
  · rw [he]
    exact FlushPageLocked_pages_length s _

/-! ## Claims C1, C2, C3 (divergences of the source, evaluated) -/

/-- Claim C1 fails on the code: after `Fetch 5; Unpin(5,false); Delete 5` on a
pool of one frame, frame 0 is on the free list and the page table is empty,
yet the replacer still tracks frame 0 — `DeletePageImpl` never removes the
frame from the Selector, so the frame appears both in the free list and in
the Selector. -/
theorem c1_delete_page_leaves_selector_entry :
    (runOps (BufferPoolManager.init 1 d0)
      [BPMOp.fetch 5, BPMOp.unpin 5 false, BPMOp.deletePage 5]).free_list = [0] ∧
    ptFind (runOps (BufferPoolManager.init 1 d0)
      [BPMOp.fetch 5, BPMOp.unpin 5 false, BPMOp.deletePage 5]).page_table 5 = none ∧
    (runOps (BufferPoolManager.init 1 d0)
      [BPMOp.fetch 5, BPMOp.unpin 5 false, BPMOp.deletePage 5]).page_table = [] ∧
    (runOps (BufferPoolManager.init 1 d0)
      [BPMOp.fetch 5, BPMOp.unpin 5 false, BPMOp.deletePage 5]).replacer.frame_list =
      [⟨0, true⟩] := by
  decide

/-- Claim C2 fails on the code: after
`Fetch 10; Unpin(10,false); Delete 10; NewPage; NewPage` on a pool of two
frames, the free list is empty, frame 0 is pinned (pin count one), yet the
replacer still tracks frame 0 (left there by `DeletePageImpl` and never
removed by `NewPageImpl`), so `Victim` — which the manager invokes on the
next fetch of a non-resident page — returns the pinned frame 0, and that
fetch hands out frame 0 again. -/
theorem c2_victim_returns_pinned_frame :
    (runOps (BufferPoolManager.init 2 d0)
      [BPMOp.fetch 10, BPMOp.unpin 10 false, BPMOp.deletePage 10,
       BPMOp.newPage, BPMOp.newPage]).free_list = [] ∧
    (lget dPage (runOps (BufferPoolManager.init 2 d0)
      [BPMOp.fetch 10, BPMOp.unpin 10 false, BPMOp.deletePage 10,
       BPMOp.newPage, BPMOp.newPage]).pages 0).pin_count = 1 ∧
    ((runOps (BufferPoolManager.init 2 d0)
      [BPMOp.fetch 10, BPMOp.unpin 10 false, BPMOp.deletePage 10,
       BPMOp.newPage, BPMOp.newPage]).replacer.Victim).1 = some 0 ∧
    ((runOps (BufferPoolManager.init 2 d0)
      [BPMOp.fetch 10, BPMOp.unpin 10 false, BPMOp.deletePage 10,
       BPMOp.newPage, BPMOp.newPage]).FetchPageImpl 99).1 = some 0 := by
  decide

/-- Claim C3 fails on the code: after `Fetch 10; Unpin(10,false)` on a pool of
one frame, page 10 is resident with pin count zero; `DeletePageImpl 10`
performs the delete (page table entry removed, frame 0 freed, metadata reset
to `INVALID_PAGE_ID`) but returns `false`, where the claim requires `true`. -/
theorem c3_delete_returns_false_on_success :
    ptFind (runOps (BufferPoolManager.init 1 d0)
      [BPMOp.fetch 10, BPMOp.unpin 10 false]).page_table 10 = some 0 ∧
    (lget dPage (runOps (BufferPoolManager.init 1 d0)
      [BPMOp.fetch 10, BPMOp.unpin 10 false]).pages 0).pin_count = 0 ∧
    ((runOps (BufferPoolManager.init 1 d0)
      [BPMOp.fetch 10, BPMOp.unpin 10 false]).DeletePageImpl 10).1 = false ∧
    ptFind ((runOps (BufferPoolManager.init 1 d0)
      [BPMOp.fetch 10, BPMOp.unpin 10 false]).DeletePageImpl 10).2.page_table 10 = none ∧
    ((runOps (BufferPoolManager.init 1 d0)
      [BPMOp.fetch 10, BPMOp.unpin 10 false]).DeletePageImpl 10).2.free_list = [0] ∧
    (lget dPage ((runOps (BufferPoolManager.init 1 d0)
      [BPMOp.fetch 10, BPMOp.unpin 10 false]).DeletePageImpl 10).2.pages 0).page_id =
      INVALID_PAGE_ID := by
  decide

/-! ## Claim C8 -/

/-- Claim C8: when the free list is empty and the replacer has no victim (its
hand is at `end()`, which under well-formedness means no tracked frame, i.e.
all frames pinned), `NewPageImpl` returns `none`, and the only state change is
the page id already allocated from the disk manager: the allocation counter
advanced and is not rolled back, nothing was deallocated, and the page table,
free list, frames and replacer are untouched. -/
theorem c8_newpage_exhausted_pool (s : BufferPoolManager)
    (hf : s.free_list = []) (hh : s.replacer.clock_hand = none) :
    s.NewPageImpl =
      (none, { s with disk := { s.disk with next_page_id := s.disk.next_page_id + 1 } }) := by
  obtain ⟨psz, pgs, pt, fl, rp, dk⟩ := s
  obtain ⟨rl, rh⟩ := rp
  obtain ⟨np, st, de⟩ := dk
  dsimp only at hf hh ⊢
  subst hf
  subst hh
  rfl

/-- Witness for C8: a pool of zero frames has an empty free list and an empty
replacer, and a fresh `NewPage` call fails while still consuming page id 0. -/
theorem c8_newpage_exhausted_pool_witness :
    (BufferPoolManager.init 0 d0).NewPageImpl =
      (none, { BufferPoolManager.init 0 d0 with
                 disk := { (BufferPoolManager.init 0 d0).disk with
                             next_page_id := (BufferPoolManager.init 0 d0).disk.next_page_id + 1 } }) :=
  c8_newpage_exhausted_pool (BufferPoolManager.init 0 d0) rfl rfl

/-! ## Claim C9 -/

theorem memId_append (y : Int) (a b : List FrameState) :
    memId y (a ++ b) = (memId y a || memId y b) := by
  induction a with
  | nil => simp [memId]
  | cons fs rest ih => simp [memId, ih, Bool.or_assoc]

theorem unpinSeq_fresh : ∀ (xs : List Int) (r : ClockReplacer),
    (∀ x ∈ xs, memId x r.frame_list = false) → xs.Nodup →
    (unpinSeq r xs).frame_list = r.frame_list ++ xs.map (fun x => ⟨x, true⟩) := by
  intro xs
  induction xs with
  | nil => intro r _ _; simp [unpinSeq]
  | cons x rest ih =>
      intro r hfresh hnd
      have hx : memId x r.frame_list = false := hfresh x (by simp)
      have hfind : findIdxFS x r.frame_list = none := findIdxFS_eq_none x _ hx
      have hstep : (r.Unpin x).frame_list = r.frame_list ++ [⟨x, true⟩] := by
        unfold ClockReplacer.Unpin
        rw [hfind]
      have hfresh2 : ∀ y ∈ rest, memId y (r.Unpin x).frame_list = false := by
        intro y hy
        rw [hstep, memId_append]
        have h1 : memId y r.frame_list = false := hfresh y (by simp [hy])
        have h2 : ¬ (x = y) := by
          intro he
          subst he
          exact (List.nodup_cons.mp hnd).1 hy
        simp [memId, h1, h2]
      have hndr : rest.Nodup := (List.nodup_cons.mp hnd).2
      calc (unpinSeq r (x :: rest)).frame_list
          = (unpinSeq (r.Unpin x) rest).frame_list := rfl
        _ = (r.Unpin x).frame_list ++ rest.map (fun x => ⟨x, true⟩) :=
            ih (r.Unpin x) hfresh2 hndr
        _ = r.frame_list ++ (x :: rest).map (fun x => ⟨x, true⟩) := by
            rw [hstep]
            simp

/-- Claim C9: the ClockReplacer never enforces the `num_pages` capacity: the
constructor ignores its argument (all initial states coincide), `Unpin` of an
untracked frame id always appends a descriptor, and unpinning the ids
`0, ..., num_pages` makes `Size` exceed `num_pages` with a descriptor whose
frame id lies outside `[0, num_pages)`. -/
theorem c9_replacer_ignores_capacity :
    (∀ n m : Nat, ClockReplacer.init n = ClockReplacer.init m) ∧
    (∀ (r : ClockReplacer) (fid : Int), findIdxFS fid r.frame_list = none →
      (r.Unpin fid).frame_list = r.frame_list ++ [⟨fid, true⟩]) ∧
    (∀ n : Nat, (unpinSeq (ClockReplacer.init n) (idsUpTo n)).Size = n + 1 ∧
      ∃ fs, fs ∈ (unpinSeq (ClockReplacer.init n) (idsUpTo n)).frame_list ∧
        fs.frame_id = (n : Int) ∧ ¬ fs.frame_id < (n : Int)) := by
  refine ⟨fun n m => rfl, ?_, ?_⟩
  · intro r fid hf
    unfold ClockReplacer.Unpin
    rw [hf]
  · intro n
    have hinj : Function.Injective (fun i : Nat => (i : Int)) := by
      intro a b h
      simpa using h
    have hnd : (idsUpTo n).Nodup := by
      unfold idsUpTo
      exact (List.nodup_range (n + 1)).map hinj
    have hrun := unpinSeq_fresh (idsUpTo n) (ClockReplacer.init n)
      (fun x _ => rfl) hnd
    constructor
    · unfold ClockReplacer.Size
      rw [hrun]
      show (([] : List FrameState) ++
        (idsUpTo n).map (fun x : Int => (⟨x, true⟩ : FrameState))).length = n + 1
      rw [List.nil_append, List.length_map]
      unfold idsUpTo
      rw [List.length_map, List.length_range]
    · refine ⟨⟨(n : Int), true⟩, ?_, ?_, ?_⟩
      · rw [hrun]
        show (⟨(n : Int), true⟩ : FrameState) ∈
          ([] : List FrameState) ++
            (idsUpTo n).map (fun x : Int => (⟨x, true⟩ : FrameState))
        rw [List.nil_append]
        refine List.mem_map.mpr ⟨(n : Int), ?_, rfl⟩
        unfold idsUpTo
        exact List.mem_map.mpr ⟨n, List.mem_range.mpr (Nat.lt_succ_self n), rfl⟩
      · rfl
      · exact lt_irrefl _

theorem lget_lset_eq_or {α : Type} (d : α) (l : List α) (n : Nat) (v : α) (j : Nat) :
    (j = n ∧ j < l.length ∧ lget d (lset l n v) j = v) ∨
    lget d (lset l n v) j = lget d l j := by
  by_cases hj : j = n
  · subst hj
    by_cases hl : j < l.length
    · exact Or.inl ⟨rfl, hl, lget_lset_self d l j v hl⟩
    · right
      rw [lset_oob l j v (by omega)]
  · exact Or.inr (lget_lset_ne d l n v j hj)

/-! ## Claim C4 -/

/-- Claim C4: `UnpinPageImpl` with an absent page id returns true and changes
nothing; on a resident page with pin count zero it returns false and changes
nothing; otherwise it returns true, decrements the pin count, ORs the dirty
flag into the frame dirty bit, and registers the frame with the Selector
exactly when the pin count reaches zero, touching no other state. -/
theorem c4_unpin_page (s : BufferPoolManager) (pid : Int) (d : Bool) :
    (ptFind s.page_table pid = none → s.UnpinPageImpl pid d = (true, s)) ∧
    (∀ fid, ptFind s.page_table pid = some fid →
      ((lget dPage s.pages fid.toNat).pin_count = 0 →
        s.UnpinPageImpl pid d = (false, s)) ∧
      (0 < (lget dPage s.pages fid.toNat).pin_count →
        s.UnpinPageImpl pid d = (true,
          { s with
              pages := lset s.pages fid.toNat
                { lget dPage s.pages fid.toNat with
                    pin_count := (lget dPage s.pages fid.toNat).pin_count - 1
                    is_dirty := (lget dPage s.pages fid.toNat).is_dirty || d }
              replacer :=
                if (lget dPage s.pages fid.toNat).pin_count - 1 = 0 then
                  s.replacer.Unpin fid
                else s.replacer }))) := by
  constructor
  · intro hpt
    unfold BufferPoolManager.UnpinPageImpl
    rw [hpt]
  · intro fid hpt
    constructor
    · intro hp0
      unfold BufferPoolManager.UnpinPageImpl
      rw [hpt]
      simp [hp0]
    · intro hpos
      unfold BufferPoolManager.UnpinPageImpl
      rw [hpt]
      simp only []
      rw [if_neg (by omega : ¬ (lget dPage s.pages fid.toNat).pin_count ≤ 0)]
      by_cases hz : (lget dPage s.pages fid.toNat).pin_count - 1 = 0
      · rw [if_pos hz, if_pos hz]
      · rw [if_neg hz, if_neg hz]

/-- Witness for C4: a pool of one frame after `Fetch 10`; unpinning page 10
dirty decrements the pin to zero, sets the dirty bit, and registers frame 0
with the Selector. -/
theorem c4_unpin_page_witness :
    (runOps (BufferPoolManager.init 1 d0) [BPMOp.fetch 10]).UnpinPageImpl 10 true =
      (true,
        { runOps (BufferPoolManager.init 1 d0) [BPMOp.fetch 10] with
            pages := lset (runOps (BufferPoolManager.init 1 d0) [BPMOp.fetch 10]).pages
              (0 : Int).toNat
              { lget dPage (runOps (BufferPoolManager.init 1 d0) [BPMOp.fetch 10]).pages
                  (0 : Int).toNat with
                  pin_count := (lget dPage (runOps (BufferPoolManager.init 1 d0)
                    [BPMOp.fetch 10]).pages (0 : Int).toNat).pin_count - 1
                  is_dirty := (lget dPage (runOps (BufferPoolManager.init 1 d0)
                    [BPMOp.fetch 10]).pages (0 : Int).toNat).is_dirty || true }
            replacer :=
              if (lget dPage (runOps (BufferPoolManager.init 1 d0)
                  [BPMOp.fetch 10]).pages (0 : Int).toNat).pin_count - 1 = 0 then
                (runOps (BufferPoolManager.init 1 d0) [BPMOp.fetch 10]).replacer.Unpin 0
              else (runOps (BufferPoolManager.init 1 d0) [BPMOp.fetch 10]).replacer }) :=
  ((c4_unpin_page (runOps (BufferPoolManager.init 1 d0) [BPMOp.fetch 10]) 10 true).2
    0 (by decide)).2 (by decide)

/-! ## Claim C7 -/

/-- Claim C7: `FlushPageImpl` leaves the page table, free list, replacer,
pool size, and every frame page id, pin count and buffer unchanged; the only
frame change is possibly clearing the dirty bit of the frame the page table
maps the argument to; it returns false exactly when the page is not resident;
the disk allocation counter and deallocation record are untouched and the
store changes only when the target frame was dirty. -/
theorem c7_flush_page (s : BufferPoolManager) (pid : Int) :
    (s.FlushPageImpl pid).2.page_table = s.page_table ∧
    (s.FlushPageImpl pid).2.free_list = s.free_list ∧
    (s.FlushPageImpl pid).2.replacer = s.replacer ∧
    (s.FlushPageImpl pid).2.pool_size = s.pool_size ∧
    (∀ n : Nat, (lget dPage (s.FlushPageImpl pid).2.pages n).page_id =
        (lget dPage s.pages n).page_id ∧
      (lget dPage (s.FlushPageImpl pid).2.pages n).pin_count =
        (lget dPage s.pages n).pin_count ∧
      (lget dPage (s.FlushPageImpl pid).2.pages n).data = (lget dPage s.pages n).data) ∧
    (∀ n : Nat, (lget dPage (s.FlushPageImpl pid).2.pages n).is_dirty =
        (lget dPage s.pages n).is_dirty ∨
      (∃ fid, ptFind s.page_table pid = some fid ∧ fid.toNat = n ∧
        (lget dPage (s.FlushPageImpl pid).2.pages n).is_dirty = false)) ∧
    ((s.FlushPageImpl pid).1 = false ↔ ptFind s.page_table pid = none) ∧
    (s.FlushPageImpl pid).2.disk.next_page_id = s.disk.next_page_id ∧
    (s.FlushPageImpl pid).2.disk.deallocated = s.disk.deallocated ∧
    ((s.FlushPageImpl pid).2.disk.store = s.disk.store ∨
      ∃ fid, ptFind s.page_table pid = some fid ∧
        (lget dPage s.pages fid.toNat).is_dirty = true) := by
  have hFP : s.FlushPageImpl pid = s.FlushPageLocked pid := rfl
  rcases FlushPageLocked_cases s pid with ⟨he, hpt⟩ | ⟨fid, hpt, hd, he⟩ | ⟨fid, hpt, hd, he⟩
  · rw [hFP, he]
    refine ⟨rfl, rfl, rfl, rfl, fun n => ⟨rfl, rfl, rfl⟩, fun n => Or.inl rfl, ?_,
      rfl, rfl, Or.inl rfl⟩
    simp [hpt]
  · rw [hFP, he]
    refine ⟨rfl, rfl, rfl, rfl, fun n => ⟨rfl, rfl, rfl⟩, fun n => Or.inl rfl, ?_,
      rfl, rfl, Or.inl rfl⟩
    simp [hpt]
  · rw [hFP, he]
    refine ⟨rfl, rfl, rfl, rfl, ?_, ?_, ?_, rfl, rfl, Or.inr ⟨fid, hpt, hd⟩⟩
    · intro n
      rcases lget_lset_eq_or dPage s.pages fid.toNat
          { lget dPage s.pages fid.toNat with is_dirty := false } n with ⟨hj, _, hv⟩ | hv
      · subst hj
        rw [hv]
        exact ⟨rfl, rfl, rfl⟩
      · rw [hv]
        exact ⟨rfl, rfl, rfl⟩
    · intro n
      rcases lget_lset_eq_or dPage s.pages fid.toNat
          { lget dPage s.pages fid.toNat with is_dirty := false } n with ⟨hj, _, hv⟩ | hv
      · exact Or.inr ⟨fid, hpt, hj.symm, by rw [hv]⟩
      · exact Or.inl (by rw [hv])
    · simp [hpt]

/-- Witness for C7: flushing the dirty resident page 3 on a pool of one frame
leaves the page table unchanged and returns true. -/
theorem c7_flush_page_witness :
    ((runOps (BufferPoolManager.init 1 d0)
        [BPMOp.fetch 3, BPMOp.unpin 3 true]).FlushPageImpl 3).2.page_table =
      (runOps (BufferPoolManager.init 1 d0)
        [BPMOp.fetch 3, BPMOp.unpin 3 true]).page_table ∧
    (((runOps (BufferPoolManager.init 1 d0)
        [BPMOp.fetch 3, BPMOp.unpin 3 true]).FlushPageImpl 3).1 = false ↔
      ptFind (runOps (BufferPoolManager.init 1 d0)
        [BPMOp.fetch 3, BPMOp.unpin 3 true]).page_table 3 = none) :=
  ⟨(c7_flush_page (runOps (BufferPoolManager.init 1 d0)
      [BPMOp.fetch 3, BPMOp.unpin 3 true]) 3).1,
   (c7_flush_page (runOps (BufferPoolManager.init 1 d0)
      [BPMOp.fetch 3, BPMOp.unpin 3 true]) 3).2.2.2.2.2.2.1⟩

/-! ## Claim C10 -/

/-- The state built by the miss path of `FetchPageImpl` once a frame `f` has
been obtained: evict if needed, install the page table entry, reset the frame,
read from disk, and pin in the replacer (a lemma-stating device; the claims
are about `FetchPageImpl` itself). -/
def fetchInstall (s1 : BufferPoolManager) (pid f : Int) : BufferPoolManager :=
  let s2 := (s1.MaybeEvictPageFromFrame f).2
  let s3 := { s2 with page_table := ptInsert s2.page_table pid f }
  let s4 := { s3 with pages := lset s3.pages f.toNat (ResetPage pid 1) }
  let pg := lget dPage s4.pages f.toNat
  let s5 := { s4 with pages := lset s4.pages f.toNat { pg with data := s4.disk.ReadPage pid } }
  { s5 with replacer := s5.replacer.Pin f }

theorem fetchInstall_page_table (s1 : BufferPoolManager) (pid f : Int) :
    (fetchInstall s1 pid f).page_table =
      ptInsert (s1.MaybeEvictPageFromFrame f).2.page_table pid f := rfl

theorem fetchInstall_pages (s1 : BufferPoolManager) (pid f : Int) :
    (fetchInstall s1 pid f).pages =
      lset (lset (s1.MaybeEvictPageFromFrame f).2.pages f.toNat (ResetPage pid 1)) f.toNat
        { lget dPage (lset (s1.MaybeEvictPageFromFrame f).2.pages f.toNat (ResetPage pid 1))
            f.toNat with
            data := (s1.MaybeEvictPageFromFrame f).2.disk.ReadPage pid } := rfl

theorem FetchPageImpl_miss (s : BufferPoolManager) (pid f : Int) (s1 : BufferPoolManager)
    (hmiss : ptFind s.page_table pid = none)
    (hGN : s.GetNextAvailableFrame = (f, s1))
    (hf : ¬ f = -1) :
    s.FetchPageImpl pid = (some f, fetchInstall s1 pid f) := by
  unfold BufferPoolManager.FetchPageImpl fetchInstall
  rw [hmiss, hGN]
  simp only [if_neg hf]

/-- Claim C10: `FetchPageImpl` does not validate its argument.  Called with
`INVALID_PAGE_ID` while the free list offers a frame, it installs a page
table entry mapping `INVALID_PAGE_ID` to that frame and returns the frame
pinned with the invalid id as its metadata; `MaybeEvictPageFromFrame` only
erases a page table entry when the frame stores an id other than
`INVALID_PAGE_ID`, so the later reuse of the frame (run on a pool of one:
`Fetch INVALID; Unpin INVALID; Fetch 7`) leaves the stale entry for
`INVALID_PAGE_ID` in the page table next to the entry for page 7. -/
theorem c10_fetch_invalid_page_id (s : BufferPoolManager) (f : Int) (rest : List Int)
    (hmiss : ptFind s.page_table INVALID_PAGE_ID = none)
    (hfl : s.free_list = f :: rest)
    (hf : ¬ f = -1)
    (hlt : f.toNat < s.pages.length) :
    (s.FetchPageImpl INVALID_PAGE_ID).1 = some f ∧
    ptFind (s.FetchPageImpl INVALID_PAGE_ID).2.page_table INVALID_PAGE_ID = some f ∧
    (lget dPage (s.FetchPageImpl INVALID_PAGE_ID).2.pages f.toNat).pin_count = 1 ∧
    (lget dPage (s.FetchPageImpl INVALID_PAGE_ID).2.pages f.toNat).page_id =
      INVALID_PAGE_ID ∧
    (∀ fid : Int, (lget dPage s.pages fid.toNat).page_id = INVALID_PAGE_ID →
      s.MaybeEvictPageFromFrame fid = (false, s)) ∧
    (ptFind (runOps (BufferPoolManager.init 1 d0)
        [BPMOp.fetch (-1), BPMOp.unpin (-1) false, BPMOp.fetch 7]).page_table
        INVALID_PAGE_ID = some 0 ∧
      ptFind (runOps (BufferPoolManager.init 1 d0)
        [BPMOp.fetch (-1), BPMOp.unpin (-1) false, BPMOp.fetch 7]).page_table 7 = some 0 ∧
      (lget dPage (runOps (BufferPoolManager.init 1 d0)
        [BPMOp.fetch (-1), BPMOp.unpin (-1) false, BPMOp.fetch 7]).pages 0).page_id = 7) := by
  have hGN : s.GetNextAvailableFrame = (f, { s with free_list := rest }) := by
    unfold BufferPoolManager.GetNextAvailableFrame
    rw [hfl]
  have hFM := FetchPageImpl_miss s INVALID_PAGE_ID f { s with free_list := rest } hmiss hGN hf
  have hlen2 : (({ s with free_list := rest } :
      BufferPoolManager).MaybeEvictPageFromFrame f).2.pages.length = s.pages.length :=
    MaybeEvict_pages_length _ f
  refine ⟨by rw [hFM], ?_, ?_, ?_, ?_, ?_⟩
  · rw [hFM]
    show ptFind (fetchInstall { s with free_list := rest } INVALID_PAGE_ID f).page_table
      INVALID_PAGE_ID = some f
    rw [fetchInstall_page_table]
    exact ptFind_ptInsert_self _ _ _
  · rw [hFM]
    show (lget dPage (fetchInstall { s with free_list := rest } INVALID_PAGE_ID f).pages
      f.toNat).pin_count = 1
    rw [fetchInstall_pages]
    rw [lget_lset_self dPage _ f.toNat _ (by rw [length_lset, hlen2]; exact hlt)]
    rw [lget_lset_self dPage _ f.toNat _ (by rw [hlen2]; exact hlt)]
    rfl
  · rw [hFM]
    show (lget dPage (fetchInstall { s with free_list := rest } INVALID_PAGE_ID f).pages
      f.toNat).page_id = INVALID_PAGE_ID
    rw [fetchInstall_pages]
    rw [lget_lset_self dPage _ f.toNat _ (by rw [length_lset, hlen2]; exact hlt)]
    rw [lget_lset_self dPage _ f.toNat _ (by rw [hlen2]; exact hlt)]
    rfl
  · intro fid hpid
    rcases MaybeEvict_cases s fid with ⟨_, he⟩ | ⟨hne, _⟩
    · exact he
    · exact absurd hpid hne
  · exact ⟨by decide, by decide, by decide⟩

/-- Witness for C10: on a fresh pool of one frame, fetching
`INVALID_PAGE_ID` succeeds and hands out frame 0. -/
theorem c10_fetch_invalid_page_id_witness :
    ((BufferPoolManager.init 1 d0).FetchPageImpl INVALID_PAGE_ID).1 = some 0 :=
  (c10_fetch_invalid_page_id (BufferPoolManager.init 1 d0) 0 [] (by decide) (by decide)
    (by decide) (by decide)).1

/-! ## Lemmas: operation effect shapes (used for the dirty-bit analysis) -/

theorem WritePage_store_self (d : DiskManager) (pid v : Int) :
    (d.WritePage pid v).store pid = v := by
  unfold DiskManager.WritePage
  simp

theorem GetNext_preserves (s : BufferPoolManager) :
    (s.GetNextAvailableFrame).2.pages = s.pages ∧
    (s.GetNextAvailableFrame).2.page_table = s.page_table ∧
    (s.GetNextAvailableFrame).2.disk = s.disk := by
  unfold BufferPoolManager.GetNextAvailableFrame
  cases hfl : s.free_list with
  | nil => exact ⟨rfl, rfl, rfl⟩
  | cons f rest => exact ⟨rfl, rfl, rfl⟩

theorem FetchPageImpl_hit (s : BufferPoolManager) (pid fid : Int)
    (hpt : ptFind s.page_table pid = some fid) :
    s.FetchPageImpl pid = (some fid,
      { s with
          pages := lset s.pages fid.toNat
            { lget dPage s.pages fid.toNat with
                pin_count := (lget dPage s.pages fid.toNat).pin_count + 1 }
          replacer := s.replacer.Pin fid }) := by
  unfold BufferPoolManager.FetchPageImpl
  rw [hpt]

theorem FetchPageImpl_fail (s : BufferPoolManager) (pid f : Int) (s1 : BufferPoolManager)
    (hmiss : ptFind s.page_table pid = none)
    (hGN : s.GetNextAvailableFrame = (f, s1))
    (hf : f = -1) :
    s.FetchPageImpl pid = (none, s1) := by
  unfold BufferPoolManager.FetchPageImpl
  rw [hmiss, hGN]
  dsimp only
  rw [if_pos hf]

theorem UnpinPageImpl_cases (s : BufferPoolManager) (pid : Int) (d : Bool) :
    s.UnpinPageImpl pid d = (true, s) ∨
    s.UnpinPageImpl pid d = (false, s) ∨
    (∃ fid, ptFind s.page_table pid = some fid ∧
      s.UnpinPageImpl pid d = (true,
        { s with
            pages := lset s.pages fid.toNat
              { lget dPage s.pages fid.toNat with
                  pin_count := (lget dPage s.pages fid.toNat).pin_count - 1
                  is_dirty := (lget dPage s.pages fid.toNat).is_dirty || d }
            replacer := if (lget dPage s.pages fid.toNat).pin_count - 1 = 0 then
                s.replacer.Unpin fid
              else s.replacer })) := by
  unfold BufferPoolManager.UnpinPageImpl
  cases hpt : ptFind s.page_table pid with
  | none => exact Or.inl rfl
  | some fid =>
      dsimp only
      by_cases hle : (lget dPage s.pages fid.toNat).pin_count ≤ 0
      · right
        left
        rw [if_pos hle]
      · right
        right
        refine ⟨fid, rfl, ?_⟩
        rw [if_neg hle]
        by_cases hz : (lget dPage s.pages fid.toNat).pin_count - 1 = 0
        · rw [if_pos hz, if_pos hz]
        · rw [if_neg hz, if_neg hz]

theorem DeletePageImpl_pages (s : BufferPoolManager) (pid : Int) :
    (s.DeletePageImpl pid).2.pages = s.pages ∨
    (∃ fid, ptFind s.page_table pid = some fid ∧
      (s.DeletePageImpl pid).2.pages =
        lset s.pages fid.toNat (ResetPage INVALID_PAGE_ID resetPinDefault)) := by
  unfold BufferPoolManager.DeletePageImpl
  dsimp only
  cases hpt : ptFind s.page_table pid with
  | none => exact Or.inl rfl
  | some fid =>
      dsimp only
      by_cases hp : ¬ (lget dPage s.pages fid.toNat).pin_count = 0
      · left
        rw [if_pos hp]
      · right
        refine ⟨fid, rfl, ?_⟩
        rw [if_neg hp]

/-- The state built by `NewPageImpl` once a frame `f` has been obtained
(a lemma-stating device; the claims are about `NewPageImpl` itself). -/
def newInstall (s1 : BufferPoolManager) (pid f : Int) : BufferPoolManager :=
  let s2 := (s1.MaybeEvictPageFromFrame f).2
  let s3 := { s2 with pages := lset s2.pages f.toNat (ResetPage pid 1) }
  { s3 with page_table := ptInsert s3.page_table pid f }

theorem newInstall_pages (s1 : BufferPoolManager) (pid f : Int) :
    (newInstall s1 pid f).pages =
      lset (s1.MaybeEvictPageFromFrame f).2.pages f.toNat (ResetPage pid 1) := rfl

theorem newInstall_disk (s1 : BufferPoolManager) (pid f : Int) :
    (newInstall s1 pid f).disk = (s1.MaybeEvictPageFromFrame f).2.disk := rfl

theorem fetchInstall_disk (s1 : BufferPoolManager) (pid f : Int) :
    (fetchInstall s1 pid f).disk = (s1.MaybeEvictPageFromFrame f).2.disk := rfl

theorem NewPageImpl_step (s : BufferPoolManager) (f : Int) (s1 : BufferPoolManager)
    (hGN : ({ s with disk := { s.disk with next_page_id := s.disk.next_page_id + 1 } } :
        BufferPoolManager).GetNextAvailableFrame = (f, s1)) :
    (f = -1 → s.NewPageImpl = (none, s1)) ∧
    (¬ f = -1 → s.NewPageImpl =
      (some (s.disk.next_page_id, f), newInstall s1 s.disk.next_page_id f)) := by
  unfold BufferPoolManager.NewPageImpl newInstall DiskManager.AllocatePage
  dsimp only
  rw [hGN]
  constructor
  · intro hf
    dsimp only
    rw [if_pos hf]
  · intro hf
    dsimp only
    rw [if_neg hf]

theorem unpin_preserves_dirty (s : BufferPoolManager) (pid : Int) (dbit : Bool) (m : Nat)
    (hm : (lget dPage s.pages m).is_dirty = true) :
    (lget dPage (s.UnpinPageImpl pid dbit).2.pages m).is_dirty = true := by
  rcases UnpinPageImpl_cases s pid dbit with he | he | ⟨fid, hpt, he⟩
  · rw [he]
    exact hm
  · rw [he]
    exact hm
  · rw [he]
    dsimp only
    rcases lget_lset_eq_or dPage s.pages fid.toNat
        { lget dPage s.pages fid.toNat with
            pin_count := (lget dPage s.pages fid.toNat).pin_count - 1
            is_dirty := (lget dPage s.pages fid.toNat).is_dirty || dbit } m with
      ⟨hj, _, hv⟩ | hv
    · rw [hv]
      subst hj
      simp [hm]
    · rw [hv]
      exact hm

/-- When evicting frame `f` clears the dirty bit of a frame `n` without the
no-op or unchanged cases applying, the clearing came from `FlushPageLocked`
writing that frame page to disk: the page table maps some page `q` to the
frame, the store now holds the frame buffer at `q`, and only the bit was
cleared. -/
theorem evict_dirty_analysis (s1 : BufferPoolManager) (f : Int) (n : Nat)
    (hB : (lget dPage (s1.MaybeEvictPageFromFrame f).2.pages n).is_dirty = false)
    (hdn : (lget dPage s1.pages n).is_dirty = true) :
    ∃ q g, ptFind s1.page_table q = some g ∧ g.toNat = n ∧
      (s1.MaybeEvictPageFromFrame f).2.disk.store q = (lget dPage s1.pages n).data ∧
      lget dPage (s1.MaybeEvictPageFromFrame f).2.pages n =
        { lget dPage s1.pages n with is_dirty := false } := by
  rcases MaybeEvict_cases s1 f with ⟨_, heA⟩ | ⟨hneA, heA⟩
  · rw [heA] at hB
    dsimp only at hB
    rw [hdn] at hB
    exact absurd hB (by decide)
  · rw [heA] at hB ⊢
    dsimp only at hB ⊢
    set pid2 := (lget dPage s1.pages f.toNat).page_id with hpid2
    rcases FlushPageLocked_cases s1 pid2 with ⟨heF, _⟩ | ⟨g, hptF, _, heF⟩ | ⟨g, hptF, hdF, heF⟩
    · rw [heF] at hB ⊢
      dsimp only at hB
      rw [hdn] at hB
      exact absurd hB (by decide)
    · rw [heF] at hB ⊢
      dsimp only at hB
      rw [hdn] at hB
      exact absurd hB (by decide)
    · rw [heF] at hB ⊢
      dsimp only at hB ⊢
      rcases lget_lset_eq_or dPage s1.pages g.toNat
          { lget dPage s1.pages g.toNat with is_dirty := false } n with ⟨hj3, _, hv3⟩ | hv3
      · refine ⟨pid2, g, hptF, hj3.symm, ?_, ?_⟩
        · rw [WritePage_store_self, ← hj3]
        · rw [hv3, ← hj3]
      · rw [hv3] at hB
        rw [hdn] at hB
        exact absurd hB (by decide)

/-! ## Claim C6 -/

/-- Claim C6: the dirty bit is sticky.  Any `UnpinPageImpl` (in particular
with `is_dirty = false`) leaves a set dirty bit set; and whenever a public
operation turns a frame dirty bit from true to false, the operation is
`FlushPage`/`FlushAllPages`, or it is a fetch, new-page or delete whose effect
on that frame is either a reset (freshly pinned metadata, or the
`INVALID_PAGE_ID`/zero-pin metadata of a delete) or the flush routine writing
that frame page to disk during eviction, clearing only the bit. -/
theorem c6_dirty_bit_sticky (s : BufferPoolManager) (op : BPMOp) (n : Nat)
    (hd : (lget dPage s.pages n).is_dirty = true)
    (hc : (lget dPage (applyOp s op).pages n).is_dirty = false) :
    ((∃ p, op = BPMOp.flushPage p) ∨ op = BPMOp.flushAll ∨
      (((∃ p, op = BPMOp.fetch p) ∨ op = BPMOp.newPage ∨
          (∃ p, op = BPMOp.deletePage p)) ∧
        (((lget dPage (applyOp s op).pages n).pin_count = 1 ∧
            (lget dPage (applyOp s op).pages n).is_dirty = false) ∨
          ((lget dPage (applyOp s op).pages n).page_id = INVALID_PAGE_ID ∧
            (lget dPage (applyOp s op).pages n).pin_count = resetPinDefault) ∨
          (∃ q fid, ptFind s.page_table q = some fid ∧ fid.toNat = n ∧
            (applyOp s op).disk.store q = (lget dPage s.pages n).data ∧
            lget dPage (applyOp s op).pages n =
              { lget dPage s.pages n with is_dirty := false })))) ∧
    (∀ (pid : Int) (dbit : Bool) (m : Nat),
      (lget dPage s.pages m).is_dirty = true →
      (lget dPage (s.UnpinPageImpl pid dbit).2.pages m).is_dirty = true) := by
  refine ⟨?_, fun pid dbit m hm => unpin_preserves_dirty s pid dbit m hm⟩
  cases op with
  | flushPage p => exact Or.inl ⟨p, rfl⟩
  | flushAll => exact Or.inr (Or.inl rfl)
  | unpin p dbit =>
      exfalso
      have hkeep := unpin_preserves_dirty s p dbit n hd
      have hA : applyOp s (BPMOp.unpin p dbit) = (s.UnpinPageImpl p dbit).2 := rfl
      rw [hA, hkeep] at hc
      exact absurd hc (by decide)
  | deletePage p =>
      refine Or.inr (Or.inr ⟨Or.inr (Or.inr ⟨p, rfl⟩), ?_⟩)
      have hA : applyOp s (BPMOp.deletePage p) = (s.DeletePageImpl p).2 := rfl
      rcases DeletePageImpl_pages s p with he | ⟨fid, hpt, he⟩
      · exfalso
        rw [hA, he, hd] at hc
        exact absurd hc (by decide)
      · rw [hA, he] at hc ⊢
        rcases lget_lset_eq_or dPage s.pages fid.toNat
            (ResetPage INVALID_PAGE_ID resetPinDefault) n with ⟨hj, _, hv⟩ | hv
        · right
          left
          rw [hv]
          exact ⟨rfl, rfl⟩
        · exfalso
          rw [hv, hd] at hc
          exact absurd hc (by decide)
  | fetch p =>
      refine Or.inr (Or.inr ⟨Or.inl ⟨p, rfl⟩, ?_⟩)
      have hA : applyOp s (BPMOp.fetch p) = (s.FetchPageImpl p).2 := rfl
      cases hpt : ptFind s.page_table p with
      | some fid =>
          exfalso
          have he := FetchPageImpl_hit s p fid hpt
          rw [hA, he] at hc
          dsimp only at hc
          rcases lget_lset_eq_or dPage s.pages fid.toNat
              { lget dPage s.pages fid.toNat with
                  pin_count := (lget dPage s.pages fid.toNat).pin_count + 1 } n with
            ⟨hj, _, hv⟩ | hv
          · rw [hv] at hc
            subst hj
            dsimp only at hc
            rw [hd] at hc
            exact absurd hc (by decide)
          · rw [hv, hd] at hc
            exact absurd hc (by decide)
      | none =>
          obtain ⟨f, s1, hGN⟩ : ∃ f s1, s.GetNextAvailableFrame = (f, s1) := ⟨_, _, rfl⟩
          have hpres := GetNext_preserves s
          rw [hGN] at hpres
          dsimp only at hpres
          obtain ⟨hp1, hp2, hp3⟩ := hpres
          by_cases hf : f = -1
          · exfalso
            have he := FetchPageImpl_fail s p f s1 hpt hGN hf
            rw [hA, he] at hc
            dsimp only at hc
            rw [hp1, hd] at hc
            exact absurd hc (by decide)
          · have he := FetchPageImpl_miss s p f s1 hpt hGN hf
            rw [hA, he] at hc ⊢
            dsimp only at hc ⊢
            rw [fetchInstall_pages] at hc
            rcases lget_lset_eq_or dPage
                (lset (s1.MaybeEvictPageFromFrame f).2.pages f.toNat (ResetPage p 1))
                f.toNat
                { lget dPage
                    (lset (s1.MaybeEvictPageFromFrame f).2.pages f.toNat (ResetPage p 1))
                    f.toNat with
                    data := (s1.MaybeEvictPageFromFrame f).2.disk.ReadPage p } n with
              ⟨hj, hl, hv⟩ | hv
            · left
              subst hj
              rw [length_lset] at hl
              rw [fetchInstall_pages, hv,
                lget_lset_self dPage (s1.MaybeEvictPageFromFrame f).2.pages f.toNat
                  (ResetPage p 1) hl]
              exact ⟨rfl, rfl⟩
            · rcases lget_lset_eq_or dPage (s1.MaybeEvictPageFromFrame f).2.pages f.toNat
                  (ResetPage p 1) n with ⟨hj2, _, hv2⟩ | hv2
              · left
                rw [fetchInstall_pages, hv, hv2]
                exact ⟨rfl, rfl⟩
              · rw [hv, hv2] at hc
                have hdn : (lget dPage s1.pages n).is_dirty = true := by
                  rw [hp1]
                  exact hd
                obtain ⟨q, g, hq, hg, hst, hpg⟩ := evict_dirty_analysis s1 f n hc hdn
                right
                right
                refine ⟨q, g, by rw [← hp2]; exact hq, hg, ?_, ?_⟩
                · rw [fetchInstall_disk, hst, hp1]
                · rw [fetchInstall_pages, hv, hv2, hpg, hp1]
  | newPage =>
      refine Or.inr (Or.inr ⟨Or.inr (Or.inl rfl), ?_⟩)
      have hA : applyOp s BPMOp.newPage = s.NewPageImpl.2 := rfl
      obtain ⟨f, s1, hGN⟩ : ∃ f s1,
          ({ s with disk := { s.disk with next_page_id := s.disk.next_page_id + 1 } } :
            BufferPoolManager).GetNextAvailableFrame = (f, s1) := ⟨_, _, rfl⟩
      have hpres := GetNext_preserves
        { s with disk := { s.disk with next_page_id := s.disk.next_page_id + 1 } }
      rw [hGN] at hpres
      dsimp only at hpres
      obtain ⟨hp1, hp2, hp3⟩ := hpres
      have hstep := NewPageImpl_step s f s1 hGN
      by_cases hf : f = -1
      · exfalso
        rw [hA, hstep.1 hf] at hc
        dsimp only at hc
        rw [hp1, hd] at hc
        exact absurd hc (by decide)
      · have he := hstep.2 hf
        rw [hA, he] at hc ⊢
        dsimp only at hc ⊢
        rw [newInstall_pages] at hc
        rcases lget_lset_eq_or dPage (s1.MaybeEvictPageFromFrame f).2.pages f.toNat
            (ResetPage s.disk.next_page_id 1) n with ⟨hj2, _, hv2⟩ | hv2
        · left
          rw [newInstall_pages, hv2]
          exact ⟨rfl, rfl⟩
        · rw [hv2] at hc
          have hdn : (lget dPage s1.pages n).is_dirty = true := by
            rw [hp1]
            exact hd
          obtain ⟨q, g, hq, hg, hst, hpg⟩ := evict_dirty_analysis s1 f n hc hdn
          right
          right
          refine ⟨q, g, by rw [← hp2]; exact hq, hg, ?_, ?_⟩
          · rw [newInstall_disk, hst, hp1]
          · rw [newInstall_pages, hv2, hpg, hp1]

/-- Witness for C6: a pool of one frame with page 10 fetched and unpinned
dirty; flushing page 10 clears the bit, and the conclusion identifies the
flush operation. -/
theorem c6_dirty_bit_sticky_witness :
    ((∃ p, BPMOp.flushPage 10 = BPMOp.flushPage p) ∨ BPMOp.flushPage 10 = BPMOp.flushAll ∨
      (((∃ p, BPMOp.flushPage 10 = BPMOp.fetch p) ∨ BPMOp.flushPage 10 = BPMOp.newPage ∨
          (∃ p, BPMOp.flushPage 10 = BPMOp.deletePage p)) ∧
        (((lget dPage (applyOp (runOps (BufferPoolManager.init 1 d0)
              [BPMOp.fetch 10, BPMOp.unpin 10 true]) (BPMOp.flushPage 10)).pages 0).pin_count = 1 ∧
            (lget dPage (applyOp (runOps (BufferPoolManager.init 1 d0)
              [BPMOp.fetch 10, BPMOp.unpin 10 true]) (BPMOp.flushPage 10)).pages 0).is_dirty = false) ∨
          ((lget dPage (applyOp (runOps (BufferPoolManager.init 1 d0)
              [BPMOp.fetch 10, BPMOp.unpin 10 true]) (BPMOp.flushPage 10)).pages 0).page_id =
              INVALID_PAGE_ID ∧
            (lget dPage (applyOp (runOps (BufferPoolManager.init 1 d0)
              [BPMOp.fetch 10, BPMOp.unpin 10 true]) (BPMOp.flushPage 10)).pages 0).pin_count =
              resetPinDefault) ∨
          (∃ q fid, ptFind (runOps (BufferPoolManager.init 1 d0)
              [BPMOp.fetch 10, BPMOp.unpin 10 true]).page_table q = some fid ∧ fid.toNat = 0 ∧
            (applyOp (runOps (BufferPoolManager.init 1 d0)
              [BPMOp.fetch 10, BPMOp.unpin 10 true]) (BPMOp.flushPage 10)).disk.store q =
              (lget dPage (runOps (BufferPoolManager.init 1 d0)
                [BPMOp.fetch 10, BPMOp.unpin 10 true]).pages 0).data ∧
            lget dPage (applyOp (runOps (BufferPoolManager.init 1 d0)
              [BPMOp.fetch 10, BPMOp.unpin 10 true]) (BPMOp.flushPage 10)).pages 0 =
              { lget dPage (runOps (BufferPoolManager.init 1 d0)
                  [BPMOp.fetch 10, BPMOp.unpin 10 true]).pages 0 with is_dirty := false })))) ∧
    (∀ (pid : Int) (dbit : Bool) (m : Nat),
      (lget dPage (runOps (BufferPoolManager.init 1 d0)
        [BPMOp.fetch 10, BPMOp.unpin 10 true]).pages m).is_dirty = true →
      (lget dPage ((runOps (BufferPoolManager.init 1 d0)
        [BPMOp.fetch 10, BPMOp.unpin 10 true]).UnpinPageImpl pid dbit).2.pages m).is_dirty =
        true) :=
  c6_dirty_bit_sticky (runOps (BufferPoolManager.init 1 d0)
    [BPMOp.fetch 10, BPMOp.unpin 10 true]) (BPMOp.flushPage 10) 0 (by decide) (by decide)

/-- Witness for C9: exercised at capacity one — the constructor argument is
irrelevant, a fresh unpin appends, and two unpins overflow the capacity. -/
theorem c9_replacer_ignores_capacity_witness :
    (ClockReplacer.init 1 = ClockReplacer.init 7) ∧
    ((ClockReplacer.init 1).Unpin 5).frame_list =
      (ClockReplacer.init 1).frame_list ++ [⟨5, true⟩] ∧
    (unpinSeq (ClockReplacer.init 1) (idsUpTo 1)).Size = 2 :=
  ⟨c9_replacer_ignores_capacity.1 1 7,
   c9_replacer_ignores_capacity.2.1 (ClockReplacer.init 1) 5 rfl,
   (c9_replacer_ignores_capacity.2.2 1).1⟩

end BusTub
